import Mathlib

/-!
Verification of the gpt-wolf trading core: a shallow embedding of the
signal ranker (`signal-ranker.ts`), the funding-rate strategy
(`funding.ts`), and the position lifecycle manager (the bot main module)
over exact rationals, together with proofs of the specified invariants.

JavaScript numbers are modelled by `ℚ`; optional / possibly-`undefined`
numeric fields by `Option ℚ`, with JS falsiness (`undefined`, `0`) made
explicit where the source relies on it (`x || d`, `!x`).
-/

namespace GptWolf

/-- JS `Math.round`: round half up, i.e. `⌊x + 1/2⌋`. -/
def jsRound (q : ℚ) : ℤ := ⌊q + 1/2⌋

/-- Round to two decimals, as `Math.round(x * 100) / 100`. -/
def round2 (q : ℚ) : ℚ := (jsRound (q * 100) : ℚ) / 100

/-- Trade direction. -/
inductive Direction where
  | LONG
  | SHORT
  deriving DecidableEq, Repr

/-- JS truthiness of an optional number: `undefined` and `0` are falsy. -/
def jsTruthy (v : Option ℚ) : Bool :=
  match v with
  | none => false
  | some q => q != 0

/-- JS `x || d` on an optional number: the default replaces `undefined` and `0`. -/
def jsOr (v : Option ℚ) (d : ℚ) : ℚ :=
  match v with
  | none => d
  | some q => if q = 0 then d else q

/-- Whether the first character list is an initial segment of the second. -/
def leadsWith : List Char → List Char → Bool
  | [], _ => true
  | _ :: _, [] => false
  | a :: as, b :: bs => a == b && leadsWith as bs

/-- Whether the pattern occurs contiguously inside the list
(JS `String.prototype.includes`). -/
def hasSeg (p : List Char) : List Char → Bool
  | [] => leadsWith p []
  | c :: ls => leadsWith p (c :: ls) || hasSeg p ls

/-- JS `s.includes(pat)`. -/
def strIncludes (s pat : String) : Bool := hasSeg pat.toList s.toList

/-! ### Signal ranker (`packages/core/src/signal-ranker.ts`) -/

/-- The `TradeSignal` record as consumed by the ranker.  Fields the ranker
never reads (timestamps, display strings, status) are omitted. -/
structure TradeSignal where
  symbol : String
  direction : Direction
  entryPrice : ℚ
  takeProfitPercent : Option ℚ
  stopLossPercent : Option ℚ
  leverage : ℚ
  reason : String
  orderType : Option String
  timeframe : Option String
  validUntil : Option ℚ
  deriving DecidableEq, Repr

/-- `extractStrategyName`: recover the strategy identity from the free-text
rationale via substring tests. -/
def extractStrategyName (reason : String) : String :=
  if strIncludes reason "News Momentum" then "News Momentum"
  else if strIncludes reason "Orderbook Imbalance" then "Orderbook Imbalance"
  else if strIncludes reason "Volume Spike" then "Volume Spike"
  else if strIncludes reason "Whale Movement" then "Whale Movement"
  else if strIncludes reason "CVD Divergence" then "CVD Divergence"
  else if strIncludes reason "Liquidation Cascade" then "Liquidation Cascade"
  else if strIncludes reason "Cross-Exchange" then "Cross-Exchange Arbitrage"
  else "Unknown"

/-- `STRATEGY_WEIGHTS` table, with the `|| 0.3` fallback for unknown names
folded in (every listed weight is nonzero, so `||` only fires on a missing
key). -/
def strategyWeightFor (name : String) : ℚ :=
  if name == "News Momentum" then 1
  else if name == "Orderbook Imbalance" then 9/10
  else if name == "Volume Spike" then 85/100
  else if name == "Whale Movement" then 7/10
  else if name == "CVD Divergence" then 65/100
  else if name == "Liquidation Cascade" then 6/10
  else if name == "Cross-Exchange Arbitrage" then 1/2
  else 3/10

/-- `calculateConfidence`: base 50, plus leverage / take-profit-ratio /
timeframe / order-type bonuses, capped at 95. -/
def calculateConfidence (signal : TradeSignal) : ℚ :=
  let c1 : ℚ := 50
  let c2 := if 25 ≤ signal.leverage ∧ signal.leverage ≤ 50 then c1 + 20
            else if 50 < signal.leverage then c1 + 10 else c1
  let tpPercent := jsOr signal.takeProfitPercent 0
  let slPercent := jsOr signal.stopLossPercent 0
  let c3 := if 0 < slPercent ∧ 2 ≤ tpPercent / slPercent then c2 + 15 else c2
  let c4 := if signal.timeframe == some "1m" ∨ signal.timeframe == some "30s"
            then c3 + 10 else c3
  let c5 := if signal.orderType == some "Market" then c4 + 5 else c4
  min c5 95

/-- `calculateRiskRewardRatio` (name shortened): take-profit percent over
stop-loss percent, `0` when the stop percent is `0`. -/
def calculateRiskReward (signal : TradeSignal) : ℚ :=
  let tpPercent := jsOr signal.takeProfitPercent 0
  let slPercent := jsOr signal.stopLossPercent 0
  if slPercent = 0 then 0 else tpPercent / slPercent

/-- `calculateSignalScore`: the weighted blend of confidence, risk/reward and
strategy weight, rounded to two decimals. -/
def calculateSignalScore (signal : TradeSignal) : ℚ :=
  let strategyWeight := strategyWeightFor (extractStrategyName signal.reason)
  let confidence := calculateConfidence signal
  let riskReward := calculateRiskReward signal
  round2 (confidence * (4/10) + riskReward * 20 * (3/10) + strategyWeight * 100 * (3/10))

/-- A scored signal (`RankedSignal`); the risk/reward field name is
shortened. -/
structure RankedSignal extends TradeSignal where
  score : ℚ
  confidence : ℚ
  riskReward : ℚ
  strategyWeight : ℚ
  deriving DecidableEq, Repr

/-- The per-signal scoring step of `rankAndSelectBestSignals` (the `map`
that attaches score, confidence, risk/reward and strategy weight). -/
def rankify (signal : TradeSignal) : RankedSignal :=
  { signal with
    score := calculateSignalScore signal
    confidence := calculateConfidence signal
    riskReward := calculateRiskReward signal
    strategyWeight := strategyWeightFor (extractStrategyName signal.reason) }

/-- The expiry filter `signal.validUntil && signal.validUntil > now`. -/
def validAt (now : ℚ) (signal : RankedSignal) : Bool :=
  match signal.validUntil with
  | none => false
  | some v => v != 0 && decide (now < v)

/-- One step of `filterConflictingSignals`: the `Map.set` that replaces the
stored candidate for a symbol by a strictly higher-scoring one (a `Map`
keeps the original insertion position on replacement). -/
def replaceBest (s : RankedSignal) (m : List RankedSignal) : List RankedSignal :=
  m.map fun x => if x.symbol == s.symbol && decide (x.score < s.score) then s else x

/-- Process one signal of `filterConflictingSignals` against the symbol map
(represented as the list of stored values in insertion order). -/
def insertBest (m : List RankedSignal) (s : RankedSignal) : List RankedSignal :=
  if m.any (fun x => x.symbol == s.symbol) then replaceBest s m else m ++ [s]

/-- `filterConflictingSignals`: keep one candidate per symbol, preferring a
strictly higher score, in first-occurrence order. -/
def filterConflictingSignals (signals : List RankedSignal) : List RankedSignal :=
  signals.foldl insertBest []

/-- Descending-score comparison used by the final `sort`. -/
def byScoreDesc (a b : RankedSignal) : Prop := b.score ≤ a.score

instance : DecidableRel byScoreDesc :=
  fun a b => inferInstanceAs (Decidable (b.score ≤ a.score))

instance : IsTotal RankedSignal byScoreDesc :=
  ⟨fun a b => le_total b.score a.score⟩

instance : IsTrans RankedSignal byScoreDesc :=
  ⟨fun _ _ _ h1 h2 => le_trans h2 h1⟩

/-- Scoring stage of `rankAndSelectBestSignals` followed by the expiry
filter: the still-valid scored candidates. -/
def survivorsStage (allSignals : List TradeSignal) (now : ℚ) : List RankedSignal :=
  (allSignals.map rankify).filter (validAt now)

/-- Deduplication stage: surviving candidates after symbol-conflict
resolution. -/
def dedupStage (allSignals : List TradeSignal) (now : ℚ) : List RankedSignal :=
  filterConflictingSignals (survivorsStage allSignals now)

/-- Sorting stage: deduplicated candidates in descending score order.  ES2019
`Array.prototype.sort` is a stable sort, whose output coincides with stable
insertion sort under the same comparison. -/
def sortStage (allSignals : List TradeSignal) (now : ℚ) : List RankedSignal :=
  (dedupStage allSignals now).insertionSort byScoreDesc

/-- `rankAndSelectBestSignals`; the ambient clock `Date.now()` is passed
explicitly as `now`. -/
def rankAndSelectBestSignals (allSignals : List TradeSignal) (maxSignals : ℕ) (now : ℚ) :
    List RankedSignal :=
  (sortStage allSignals now).take maxSignals

/-- A concrete high-scoring candidate used in example instances. -/
def sigNews : TradeSignal :=
  { symbol := "BTCUSDT", direction := .SHORT, entryPrice := 100,
    takeProfitPercent := some 4, stopLossPercent := some 2, leverage := 30,
    reason := "News Momentum zzz", orderType := some "Market",
    timeframe := none, validUntil := some 100 }

/-- A concrete lower-scoring candidate on the same symbol, opposite
direction. -/
def sigWhale : TradeSignal :=
  { symbol := "BTCUSDT", direction := .LONG, entryPrice := 100,
    takeProfitPercent := none, stopLossPercent := none, leverage := 10,
    reason := "Whale Movement", orderType := none,
    timeframe := none, validUntil := some 100 }

example : calculateConfidence sigNews = 90 :=
  of_decide_eq_true (by with_unfolding_all rfl)

example : rankAndSelectBestSignals [sigWhale, sigNews] 5 50 = [rankify sigNews] :=
  of_decide_eq_true (by with_unfolding_all rfl)

/-! ### Funding-rate strategy (`packages/strategies/src/funding.ts`, the
variant with realistic Bybit leverage and stamped expiries) -/

namespace Funding

/-- Per-symbol market snapshot as consumed by the funding strategy.  The
optional liquidation aggregate is not read by this strategy and is
omitted. -/
structure MarketSummary where
  symbol : String
  price : ℚ
  volume24h : ℚ
  change24h : ℚ
  fundingRate : ℚ
  nextFundingTime : ℚ
  openInterest : ℚ
  deriving DecidableEq, Repr

/-- Strategy configuration record (taken by the strategy but unused by this
variant's body). -/
structure StrategyConfig where
  defaultLeverage : ℚ
  maxLeverage : ℚ
  riskPercentage : ℚ
  deriving DecidableEq, Repr

/-- Order-placement modes. -/
inductive OrderKind where
  | Market
  | Limit
  | Conditional
  | TWAP
  | Iceberg
  deriving DecidableEq, Repr

/-- The `leverageLimits` table of `getRealisticLeverage`, with the
conservative default 20 for unlisted symbols. -/
def leverageLimitFor (symbol : String) : ℚ :=
  if symbol == "BTCUSDT" then 100
  else if symbol == "ETHUSDT" then 100
  else if symbol == "SOLUSDT" then 50
  else if symbol == "ADAUSDT" then 50
  else if symbol == "AVAXUSDT" then 25
  else if symbol == "LINKUSDT" then 25
  else if symbol == "DOGEUSDT" then 25
  else if symbol == "RADUSDT" then 25/2
  else 20

/-- `getRealisticLeverage`: funding-scaled leverage, floored, clamped into
`[5, leverage limit]`. -/
def getRealisticLeverage (symbol : String) (fundingRate : ℚ) : ℚ :=
  let maxLeverage := leverageLimitFor symbol
  let fundingBasedLeverage := |fundingRate| * 20000
  max 5 (min (⌊fundingBasedLeverage⌋ : ℚ) maxLeverage)

/-- `getOptimalOrderType`. -/
def getOptimalOrderType (fundingRate : ℚ) (leverage : ℚ) : OrderKind :=
  if 2/1000 < |fundingRate| then (if 25 < leverage then .Conditional else .Market)
  else if 1/1000 < |fundingRate| then .Limit
  else .TWAP

/-- The emitted funding `TradeSignal`.  The display-only `reason`,
`createdAt` and `expiresAt` strings are omitted. -/
structure FundingSignal where
  symbol : String
  direction : Direction
  entryPrice : ℚ
  targetPrice : ℚ
  stopLoss : ℚ
  leverage : ℚ
  orderType : OrderKind
  timestamp : ℚ
  timeframe : String
  validUntil : ℚ
  deriving DecidableEq, Repr

/-- Build the signal pushed for one extreme-funding market. -/
def mkFundingSignal (now : ℚ) (market : MarketSummary) : FundingSignal :=
  let direction : Direction := if 0 < market.fundingRate then .SHORT else .LONG
  let leverage := getRealisticLeverage market.symbol market.fundingRate
  let orderType := getOptimalOrderType market.fundingRate leverage
  let entryPrice := market.price
  let stopLossPercentage := 100 / leverage * (7/10)
  let takeProfitPercentage := stopLossPercentage * 4
  let targetPrice :=
    if direction = .LONG then entryPrice * (1 + takeProfitPercentage / 100)
    else entryPrice * (1 - takeProfitPercentage / 100)
  let stopLoss :=
    if direction = .LONG then entryPrice * (1 - stopLossPercentage / 100)
    else entryPrice * (1 + stopLossPercentage / 100)
  let validUntil := now + 8 * 60 * 60 * 1000
  ⟨market.symbol, direction, entryPrice, targetPrice, stopLoss, leverage,
    orderType, now, "1h", validUntil⟩

/-- The extreme-funding filter: `|fundingRate| > 0.001` and 24h volume above
one million dollars. -/
def passesFundingFilter (m : MarketSummary) : Bool :=
  decide (1/1000 < |m.fundingRate|) && decide (1000000 < m.volume24h)

/-- Descending comparison on funding-rate magnitude used by the strategy's
sort. -/
def byAbsFundingDesc (a b : MarketSummary) : Prop :=
  |b.fundingRate| ≤ |a.fundingRate|

instance : DecidableRel byAbsFundingDesc :=
  fun a b => inferInstanceAs (Decidable (|b.fundingRate| ≤ |a.fundingRate|))

instance : IsTotal MarketSummary byAbsFundingDesc :=
  ⟨fun a b => le_total |b.fundingRate| |a.fundingRate|⟩

instance : IsTrans MarketSummary byAbsFundingDesc :=
  ⟨fun _ _ _ h1 h2 => le_trans h2 h1⟩

/-- `fundingRateStrategy`: filter extreme funding, sort by magnitude, take
the top three, emit one contrarian signal each.  `Date.now()` is passed as
`now`; `config` is unused by this variant. -/
def fundingRateStrategy (markets : List MarketSummary) (_config : StrategyConfig)
    (now : ℚ) : List FundingSignal :=
  let extremeFunding := (markets.filter passesFundingFilter).insertionSort byAbsFundingDesc
  ((extremeFunding.take 3).map (mkFundingSignal now))

end Funding

/-! ### Position lifecycle manager (the bot main module: `activePositions`,
`monitorActivePositions`, `updateTrailingStop`, `closePosition`) -/

namespace Lifecycle

/-- The in-memory `AdvancedPosition` record. -/
structure AdvancedPosition where
  direction : Direction
  orderId : String
  entryPrice : ℚ
  targetPrice : Option ℚ
  stopLoss : Option ℚ
  trailingStop : Option ℚ
  openTime : ℚ
  maxFavorablePrice : Option ℚ
  liquidationPrice : Option ℚ
  inactivityTimeoutMs : Option ℚ
  leverage : ℚ
  deriving DecidableEq, Repr

/-- The slice of a `MarketSummary` read by `monitorActivePositions`: last
price, 1-minute change, and the 24h liquidation total (`none` when the
`liquidations24h` aggregate is absent). -/
structure MktState where
  price : Option ℚ
  change1m : Option ℚ
  liquidationsTotal : Option ℚ
  deriving DecidableEq, Repr

/-- `calcLiquidationPrice`: approximate Bybit liquidation price from entry,
leverage, direction and maintenance margin ratio (the source documents it
as an approximation ignoring funding accrual and cross-margin effects). -/
def calcLiquidationPrice (entry leverage : ℚ) (direction : Direction) (mmr : ℚ) : ℚ :=
  if direction = .LONG then entry * (1 - 1 / leverage + mmr)
  else entry * (1 + 1 / leverage - mmr)

/-- `updateTrailingStop`: ratchet the trailing stop and the effective stop
loss toward the price when it has moved favourably.  A no-op when the price
or the entry price is falsy. -/
def updateTrailingStop (pos : AdvancedPosition) (price : ℚ) (trailingPerc : ℚ) :
    AdvancedPosition :=
  if price = 0 ∨ pos.entryPrice = 0 then pos
  else if pos.direction = .LONG then
    let newSL := price * (1 - trailingPerc)
    if jsTruthy pos.trailingStop = false ∨ pos.trailingStop.getD 0 < newSL then
      { pos with trailingStop := some newSL,
                 stopLoss := some (max (jsOr pos.stopLoss 0) newSL) }
    else pos
  else
    let newSL := price * (1 + trailingPerc)
    if jsTruthy pos.trailingStop = false ∨ newSL < pos.trailingStop.getD 0 then
      { pos with trailingStop := some newSL,
                 stopLoss := some (match pos.stopLoss with
                                   | none => newSL
                                   | some s => if s = 0 then newSL else min s newSL) }
    else pos

/-- Reason codes attached to `closePosition` calls. -/
inductive CloseReason where
  | takeProfit
  | stopLoss
  | oppositeSignal
  | preLiquidation
  | volatilitySpike
  | liquidationCluster
  | timeout
  deriving DecidableEq, Repr

/-- The final maximum-favorable-price update of the monitor loop body. -/
def maxFavUpdate (pos : AdvancedPosition) (p : ℚ) : AdvancedPosition :=
  if (pos.direction = .LONG ∧
        (jsTruthy pos.maxFavorablePrice = false ∨ pos.maxFavorablePrice.getD 0 < p))
      ∨ (pos.direction = .SHORT ∧
        (jsTruthy pos.maxFavorablePrice = false ∨ p < pos.maxFavorablePrice.getD 0))
  then { pos with maxFavorablePrice := some p } else pos

/-- One pass of the `monitorActivePositions` loop body for a single
position: the in-place mutations are made explicit, the `closePosition`
calls become a returned reason code.  Returns `none` with the updated
position when no exit condition fires. -/
def monitorPosition (pos : AdvancedPosition) (mkt : MktState)
    (lastSignal : Option Direction) (now : ℚ) : Option CloseReason × AdvancedPosition :=
  match mkt.price with
  | none => (none, pos)
  | some p =>
    if p = 0 then (none, pos)
    else
      let pos1 := updateTrailingStop pos p (3/1000)
      if pos1.direction = .LONG ∧ jsOr pos1.targetPrice 0 ≤ p then (some .takeProfit, pos1)
      else if pos1.direction = .SHORT ∧ p ≤ jsOr pos1.targetPrice 0 then (some .takeProfit, pos1)
      else if pos1.direction = .LONG ∧ p ≤ jsOr pos1.stopLoss 0 then (some .stopLoss, pos1)
      else if pos1.direction = .SHORT ∧ jsOr pos1.stopLoss 0 ≤ p then (some .stopLoss, pos1)
      else if lastSignal ≠ none ∧ lastSignal ≠ some pos1.direction then
        (some .oppositeSignal, pos1)
      else
        let liq := calcLiquidationPrice pos1.entryPrice pos1.leverage pos1.direction (5/1000)
        let pos2 := { pos1 with liquidationPrice := some liq }
        if pos2.direction = .LONG ∧ p ≤ liq * (1 + 3/1000) then (some .preLiquidation, pos2)
        else if pos2.direction = .SHORT ∧ liq * (1 - 3/1000) ≤ p then (some .preLiquidation, pos2)
        else if jsTruthy mkt.change1m = true ∧ 2/100 < |mkt.change1m.getD 0| then
          (some .volatilitySpike, pos2)
        else if mkt.liquidationsTotal ≠ none ∧ 5000000 < mkt.liquidationsTotal.getD 0 then
          (some .liquidationCluster, pos2)
        else
          let openT := if pos2.openTime = 0 then now else pos2.openTime
          let pos3 := { pos2 with openTime := openT }
          if jsOr pos3.inactivityTimeoutMs (30 * 60 * 1000) < now - openT then
            (some .timeout, pos3)
          else (none, maxFavUpdate pos3 p)

/-- Whether a position with the given direction is already tracked for the
symbol (`activePositions[symbol].some(p => p.direction === sig.direction)`). -/
def hasDirection (ps : List AdvancedPosition) (d : Direction) : Bool :=
  ps.any fun p => p.direction == d

/-- `closePosition` on one symbol's list: remove the first position with the
given direction, if any. -/
def closePositions (ps : List AdvancedPosition) (d : Direction) : List AdvancedPosition :=
  match ps.findIdx? (fun p => p.direction == d) with
  | none => ps
  | some i => ps.eraseIdx i

/-- One symbol's open-position handling state: the pushed `activePositions`
list together with the positions whose `executeTrade` order was submitted
but whose promise has not yet resolved (their `.then` continuation is still
queued). -/
structure SymbolState where
  positions : List AdvancedPosition
  pending : List AdvancedPosition
  deriving DecidableEq, Repr

/-- The synchronous part of one signal's handling in `handleWebSocketUpdate`:
the `alreadyActive` check reads only the pushed `activePositions` list and
skips the signal on a same-direction hit; a passing signal submits its order
— the push itself is deferred to the promise continuation, so here the
position only joins the in-flight queue. -/
def evalSignal (st : SymbolState) (pos : AdvancedPosition) : SymbolState :=
  if hasDirection st.positions pos.direction then st
  else { st with pending := st.pending ++ [pos] }

/-- The `.then` continuation of `executeTrade` for the oldest in-flight
order: on success the position is pushed onto `activePositions` with no
further check, on failure only an error is logged.  (Which in-flight order
resolves first is immaterial: every resolution pushes without
re-checking.) -/
def resolveOrder (st : SymbolState) (ok : Bool) : SymbolState :=
  match st.pending with
  | [] => st
  | p :: rest =>
    { positions := if ok then st.positions ++ [p] else st.positions, pending := rest }

/-- Events of one symbol's open-position handling: one strategy signal
evaluated by `handleWebSocketUpdate`, one order promise resolving, and a
`closePosition` call. -/
inductive SymbolEvent where
  | signal (pos : AdvancedPosition)
  | resolve (ok : Bool)
  | close (d : Direction)

/-- Apply one event. -/
def stepSymbol (st : SymbolState) : SymbolEvent → SymbolState
  | .signal pos => evalSignal st pos
  | .resolve ok => resolveOrder st ok
  | .close d => { st with positions := closePositions st.positions d }

/-- Apply a sequence of events. -/
def runSymbol (st : SymbolState) : List SymbolEvent → SymbolState
  | [] => st
  | e :: es => runSymbol (stepSymbol st e) es

/-- At most one tracked position per direction in one symbol's list. -/
def atMostOnePerDirection (ps : List AdvancedPosition) : Prop :=
  ∀ d, (ps.filter (fun p => p.direction == d)).length ≤ 1

end Lifecycle

/-- `SignalExecutor.updateTrailingStop`
(`packages/strategies/src/signal-executor.ts`): pure trailing-stop update
from current price, entry, direction and the trailing configuration
(activation distance, trail distance). -/
def executorUpdateTrailingStop (currentPrice entryPrice : ℚ) (direction : Direction)
    (currentStopLoss : ℚ) (activationDistance trailDistance : ℚ) : ℚ :=
  let isLong := direction = .LONG
  let currentProfit :=
    if isLong then (currentPrice - entryPrice) / entryPrice
    else (entryPrice - currentPrice) / entryPrice
  if currentProfit < activationDistance then currentStopLoss
  else
    let newStopLoss :=
      if isLong then currentPrice * (1 - trailDistance)
      else currentPrice * (1 + trailDistance)
    if isLong then max currentStopLoss newStopLoss
    else min currentStopLoss newStopLoss

/-- Iterated `SignalExecutor.updateTrailingStop` across a sequence of price
ticks. -/
def executorRunTrail (entryPrice : ℚ) (direction : Direction)
    (activationDistance trailDistance : ℚ) (sl0 : ℚ) (prices : List ℚ) : ℚ :=
  prices.foldl
    (fun sl p => executorUpdateTrailingStop p entryPrice direction sl activationDistance trailDistance)
    sl0

/-! ### Specification-level decompositions used to state the claims -/

/-- Leverage sweet-spot bonus of `calculateConfidence`. -/
def bonusLeverage (lev : ℚ) : ℚ :=
  if 25 ≤ lev ∧ lev ≤ 50 then 20 else if 50 < lev then 10 else 0

/-- Take-profit to stop-loss ratio bonus of `calculateConfidence`. -/
def bonusRatioTPSL (s : TradeSignal) : ℚ :=
  if 0 < jsOr s.stopLossPercent 0
      ∧ 2 ≤ jsOr s.takeProfitPercent 0 / jsOr s.stopLossPercent 0
  then 15 else 0

/-- Short-timeframe bonus of `calculateConfidence`. -/
def bonusTimeframe (s : TradeSignal) : ℚ :=
  if s.timeframe == some "1m" ∨ s.timeframe == some "30s" then 10 else 0

/-- Immediate-execution order-mode bonus of `calculateConfidence`. -/
def bonusOrderMode (s : TradeSignal) : ℚ :=
  if s.orderType == some "Market" then 5 else 0

/-- Twin of `sigNews` differing only in direction: same symbol and the same
score, placed earlier in the input in the tie examples. -/
def sigNewsTwin : TradeSignal := { sigNews with direction := .LONG }

namespace Lifecycle

/-- Exit condition 1: target reached in the favourable direction. -/
def tpCond (pos : AdvancedPosition) (p : ℚ) : Prop :=
  (pos.direction = .LONG ∧ jsOr pos.targetPrice 0 ≤ p)
  ∨ (pos.direction = .SHORT ∧ p ≤ jsOr pos.targetPrice 0)

/-- Exit condition 2: (possibly trailed) stop reached. -/
def slCond (pos : AdvancedPosition) (p : ℚ) : Prop :=
  (pos.direction = .LONG ∧ p ≤ jsOr pos.stopLoss 0)
  ∨ (pos.direction = .SHORT ∧ jsOr pos.stopLoss 0 ≤ p)

/-- Exit condition 3: the last accepted signal for the symbol disagrees with
the position's direction. -/
def oppCond (lastSignal : Option Direction) (d : Direction) : Prop :=
  lastSignal ≠ none ∧ lastSignal ≠ some d

/-- Exit condition 4: price within the pre-liquidation buffer of the
(recomputed) liquidation price. -/
def preLiqCond (pos : AdvancedPosition) (p : ℚ) : Prop :=
  (pos.direction = .LONG
    ∧ p ≤ calcLiquidationPrice pos.entryPrice pos.leverage pos.direction (5/1000) * (1 + 3/1000))
  ∨ (pos.direction = .SHORT
    ∧ calcLiquidationPrice pos.entryPrice pos.leverage pos.direction (5/1000) * (1 - 3/1000) ≤ p)

/-- Exit condition 5: anomalous 1-minute move. -/
def volCond (mkt : MktState) : Prop :=
  jsTruthy mkt.change1m = true ∧ 2/100 < |mkt.change1m.getD 0|

/-- Exit condition 6: sudden liquidation cluster. -/
def clusterCond (mkt : MktState) : Prop :=
  mkt.liquidationsTotal ≠ none ∧ 5000000 < mkt.liquidationsTotal.getD 0

/-- Exit condition 7: inactivity timeout exceeded. -/
def timeoutCond (pos : AdvancedPosition) (now : ℚ) : Prop :=
  jsOr pos.inactivityTimeoutMs (30 * 60 * 1000) < now - pos.openTime

instance (pos : AdvancedPosition) (p : ℚ) : Decidable (tpCond pos p) := by
  unfold tpCond; exact inferInstance

instance (pos : AdvancedPosition) (p : ℚ) : Decidable (slCond pos p) := by
  unfold slCond; exact inferInstance

instance (lastSignal : Option Direction) (d : Direction) : Decidable (oppCond lastSignal d) := by
  unfold oppCond; exact inferInstance

instance (pos : AdvancedPosition) (p : ℚ) : Decidable (preLiqCond pos p) := by
  unfold preLiqCond; exact inferInstance

instance (mkt : MktState) : Decidable (volCond mkt) := by
  unfold volCond; exact inferInstance

instance (mkt : MktState) : Decidable (clusterCond mkt) := by
  unfold clusterCond; exact inferInstance

instance (pos : AdvancedPosition) (now : ℚ) : Decidable (timeoutCond pos now) := by
  unfold timeoutCond; exact inferInstance

/-- A concrete LONG position at entry 100 with leverage 50, used for the
pre-liquidation example: target 110, stop 90. -/
def examplePos : AdvancedPosition :=
  { direction := .LONG, orderId := "o1", entryPrice := 100,
    targetPrice := some 110, stopLoss := some 90, trailingStop := none,
    openTime := 1, maxFavorablePrice := none, liquidationPrice := none,
    inactivityTimeoutMs := none, leverage := 50 }

/-- A market tick carrying only a price. -/
def priceTick (p : ℚ) : MktState := ⟨some p, none, none⟩

/-- `examplePos` after the trailing-stop ratchet on a tick at price `p`. -/
def examplePosAt (p : ℚ) : AdvancedPosition :=
  { direction := .LONG, orderId := "o1", entryPrice := 100,
    targetPrice := some 110, stopLoss := some (max 90 (p * (1 - 3/1000))),
    trailingStop := some (p * (1 - 3/1000)), openTime := 1,
    maxFavorablePrice := none, liquidationPrice := none,
    inactivityTimeoutMs := none, leverage := 50 }

/-- The per-tick liquidation-price refresh of the monitor body. -/
def liqRefresh (pos : AdvancedPosition) : AdvancedPosition :=
  { pos with
      liquidationPrice :=
        some (calcLiquidationPrice pos.entryPrice pos.leverage pos.direction (5/1000)) }

/-- The `pos.openTime = pos.openTime || now` defaulting of the monitor
body. -/
def timeStamped (pos : AdvancedPosition) (now : ℚ) : AdvancedPosition :=
  { pos with openTime := if pos.openTime = 0 then now else pos.openTime }

/-- The exit-condition chain the monitor body evaluates after the
trailing-stop ratchet, written with the named conditions: the first firing
condition decides the reason and the returned state. -/
def exitEval (pos1 : AdvancedPosition) (mkt : MktState) (lastSignal : Option Direction)
    (now p : ℚ) : Option CloseReason × AdvancedPosition :=
  if tpCond pos1 p then (some .takeProfit, pos1)
  else if slCond pos1 p then (some .stopLoss, pos1)
  else if oppCond lastSignal pos1.direction then (some .oppositeSignal, pos1)
  else
    let pos2 := liqRefresh pos1
    if preLiqCond pos1 p then (some .preLiquidation, pos2)
    else if volCond mkt then (some .volatilitySpike, pos2)
    else if clusterCond mkt then (some .liquidationCluster, pos2)
    else
      let pos3 := timeStamped pos2 now
      if timeoutCond pos3 now then (some .timeout, pos3)
      else (none, maxFavUpdate pos3 p)

end Lifecycle

/-- Pairwise-distinct symbols in a ranked list. -/
def distinctSymbols (m : List RankedSignal) : Prop :=
  List.Pairwise (fun a b => a.symbol ≠ b.symbol) m

/-- Invariant of the `filterConflictingSignals` fold: the accumulator `m`
holds exactly one representative per symbol occurring in `processed`, each
itself processed and of maximal score for its symbol. -/
def DedupInv (processed m : List RankedSignal) : Prop :=
  (∀ r ∈ m, r ∈ processed)
  ∧ (∀ c ∈ processed, ∀ r ∈ m, r.symbol = c.symbol → c.score ≤ r.score)
  ∧ (∀ c ∈ processed, ∃ r ∈ m, r.symbol = c.symbol)
  ∧ distinctSymbols m

/-- A concrete market snapshot with extreme negative funding (−0.17%) and
volume above the funding strategy's minimum. -/
def mBTC : Funding.MarketSummary :=
  { symbol := "BTCUSDT", price := 100, volume24h := 2000000, change24h := 0,
    fundingRate := -17/10000, nextFundingTime := 0, openInterest := 0 }

/-!
## Theorems

The claims about the ranker, the funding strategy and the lifecycle
manager, together with the helper lemmas they rest on.
-/

/-- C5: the ranked score equals 0.4·confidence + 0.3·(riskReward·20) +
0.3·(strategyWeight·100) rounded to two decimals, where confidence is the
base 50 plus the leverage sweet-spot, take-profit ratio, short-timeframe
and immediate-order bonuses capped at 95; consequently confidence always
lies in [50, 95]. -/
theorem signal_score_formula_confidence_bounds (s : TradeSignal) :
    calculateSignalScore s =
      round2 ((4/10) * calculateConfidence s + (3/10) * (calculateRiskReward s * 20)
        + (3/10) * (strategyWeightFor (extractStrategyName s.reason) * 100))
    ∧ calculateConfidence s =
        min (50 + bonusLeverage s.leverage + bonusRatioTPSL s + bonusTimeframe s
          + bonusOrderMode s) 95
    ∧ 50 ≤ calculateConfidence s ∧ calculateConfidence s ≤ 95 := by
  refine ⟨?_, ?_, ?_, ?_⟩
  · simp only [calculateSignalScore]
    congr 1
    ring
  · simp only [calculateConfidence, bonusLeverage, bonusRatioTPSL, bonusTimeframe,
      bonusOrderMode]
    split_ifs <;> norm_num
  · simp only [calculateConfidence]
    split_ifs <;> norm_num
  · simp only [calculateConfidence]
    split_ifs <;> norm_num

namespace Lifecycle

/-- The trailing-stop ratchet never changes the direction of a position. -/
theorem updateTrailingStop_direction (pos : AdvancedPosition) (p tp : ℚ) :
    (updateTrailingStop pos p tp).direction = pos.direction := by
  simp only [updateTrailingStop]
  split_ifs <;> rfl

/-- The trailing-stop ratchet never changes the open time of a position. -/
theorem updateTrailingStop_openTime (pos : AdvancedPosition) (p tp : ℚ) :
    (updateTrailingStop pos p tp).openTime = pos.openTime := by
  simp only [updateTrailingStop]
  split_ifs <;> rfl

/-- On a tick with a truthy price, the monitor body is exactly the ratchet
followed by the named exit-condition chain. -/
theorem monitor_eq_exitEval (pos : AdvancedPosition) (mkt : MktState)
    (lastSignal : Option Direction) (now p : ℚ) (hp : mkt.price = some p) (hp0 : ¬ p = 0) :
    monitorPosition pos mkt lastSignal now =
      exitEval (updateTrailingStop pos p (3/1000)) mkt lastSignal now p := by
  cases hdir : (updateTrailingStop pos p (3/1000)).direction with
  | LONG =>
    simp [monitorPosition, exitEval, liqRefresh, timeStamped, hp, hp0, hdir, tpCond,
      slCond, oppCond, preLiqCond, volCond, clusterCond, timeoutCond]
  | SHORT =>
    simp [monitorPosition, exitEval, liqRefresh, timeStamped, hp, hp0, hdir, tpCond,
      slCond, oppCond, preLiqCond, volCond, clusterCond, timeoutCond]

/-- The liquidation-price refresh keeps the open time. -/
theorem liqRefresh_openTime (pos : AdvancedPosition) :
    (liqRefresh pos).openTime = pos.openTime := rfl

/-- The open-time defaulting is the identity on positions with a truthy
open time. -/
theorem timeStamped_of_ne (pos : AdvancedPosition) (now : ℚ) (h : ¬ pos.openTime = 0) :
    timeStamped pos now = pos := by
  unfold timeStamped
  rw [if_neg h]

/-- C2: on every tick with a truthy price the monitor first applies the
trailing-stop ratchet and then evaluates the exit conditions in the fixed
order take-profit, stop-loss, opposite signal, pre-liquidation, volatility
spike, liquidation cluster, inactivity timeout; the first condition that
fires closes the position with that reason and later conditions are not
reached, and when none fires the position stays open with only the
liquidation price refreshed and the maximum-favorable price updated. -/
theorem monitor_exit_order (pos : AdvancedPosition) (mkt : MktState)
    (lastSignal : Option Direction) (now p : ℚ)
    (hp : mkt.price = some p) (hp0 : ¬ p = 0) (hot : ¬ pos.openTime = 0) :
    (tpCond (updateTrailingStop pos p (3/1000)) p →
      monitorPosition pos mkt lastSignal now =
        (some .takeProfit, updateTrailingStop pos p (3/1000)))
    ∧ (¬ tpCond (updateTrailingStop pos p (3/1000)) p →
       slCond (updateTrailingStop pos p (3/1000)) p →
      monitorPosition pos mkt lastSignal now =
        (some .stopLoss, updateTrailingStop pos p (3/1000)))
    ∧ (¬ tpCond (updateTrailingStop pos p (3/1000)) p →
       ¬ slCond (updateTrailingStop pos p (3/1000)) p →
       oppCond lastSignal (updateTrailingStop pos p (3/1000)).direction →
      monitorPosition pos mkt lastSignal now =
        (some .oppositeSignal, updateTrailingStop pos p (3/1000)))
    ∧ (¬ tpCond (updateTrailingStop pos p (3/1000)) p →
       ¬ slCond (updateTrailingStop pos p (3/1000)) p →
       ¬ oppCond lastSignal (updateTrailingStop pos p (3/1000)).direction →
       preLiqCond (updateTrailingStop pos p (3/1000)) p →
      monitorPosition pos mkt lastSignal now =
        (some .preLiquidation, liqRefresh (updateTrailingStop pos p (3/1000))))
    ∧ (¬ tpCond (updateTrailingStop pos p (3/1000)) p →
       ¬ slCond (updateTrailingStop pos p (3/1000)) p →
       ¬ oppCond lastSignal (updateTrailingStop pos p (3/1000)).direction →
       ¬ preLiqCond (updateTrailingStop pos p (3/1000)) p →
       volCond mkt →
      monitorPosition pos mkt lastSignal now =
        (some .volatilitySpike, liqRefresh (updateTrailingStop pos p (3/1000))))
    ∧ (¬ tpCond (updateTrailingStop pos p (3/1000)) p →
       ¬ slCond (updateTrailingStop pos p (3/1000)) p →
       ¬ oppCond lastSignal (updateTrailingStop pos p (3/1000)).direction →
       ¬ preLiqCond (updateTrailingStop pos p (3/1000)) p →
       ¬ volCond mkt → clusterCond mkt →
      monitorPosition pos mkt lastSignal now =
        (some .liquidationCluster, liqRefresh (updateTrailingStop pos p (3/1000))))
    ∧ (¬ tpCond (updateTrailingStop pos p (3/1000)) p →
       ¬ slCond (updateTrailingStop pos p (3/1000)) p →
       ¬ oppCond lastSignal (updateTrailingStop pos p (3/1000)).direction →
       ¬ preLiqCond (updateTrailingStop pos p (3/1000)) p →
       ¬ volCond mkt → ¬ clusterCond mkt →
       timeoutCond (liqRefresh (updateTrailingStop pos p (3/1000))) now →
      monitorPosition pos mkt lastSignal now =
        (some .timeout, liqRefresh (updateTrailingStop pos p (3/1000))))
    ∧ (¬ tpCond (updateTrailingStop pos p (3/1000)) p →
       ¬ slCond (updateTrailingStop pos p (3/1000)) p →
       ¬ oppCond lastSignal (updateTrailingStop pos p (3/1000)).direction →
       ¬ preLiqCond (updateTrailingStop pos p (3/1000)) p →
       ¬ volCond mkt → ¬ clusterCond mkt →
       ¬ timeoutCond (liqRefresh (updateTrailingStop pos p (3/1000))) now →
      monitorPosition pos mkt lastSignal now =
        (none, maxFavUpdate (liqRefresh (updateTrailingStop pos p (3/1000))) p)) := by
  have hot1 : ¬ (liqRefresh (updateTrailingStop pos p (3/1000))).openTime = 0 := by
    rw [liqRefresh_openTime, updateTrailingStop_openTime]
    exact hot
  have hts :
      timeStamped (liqRefresh (updateTrailingStop pos p (3/1000))) now =
        liqRefresh (updateTrailingStop pos p (3/1000)) :=
    timeStamped_of_ne _ now hot1
  rw [monitor_eq_exitEval pos mkt lastSignal now p hp hp0]
  simp only [exitEval, hts]
  refine ⟨?_, ?_, ?_, ?_, ?_, ?_, ?_, ?_⟩
  · intro h1
    rw [if_pos h1]
  · intro h1 h2
    rw [if_neg h1, if_pos h2]
  · intro h1 h2 h3
    rw [if_neg h1, if_neg h2, if_pos h3]
  · intro h1 h2 h3 h4
    rw [if_neg h1, if_neg h2, if_neg h3, if_pos h4]
  · intro h1 h2 h3 h4 h5
    rw [if_neg h1, if_neg h2, if_neg h3, if_neg h4, if_pos h5]
  · intro h1 h2 h3 h4 h5 h6
    rw [if_neg h1, if_neg h2, if_neg h3, if_neg h4, if_neg h5, if_pos h6]
  · intro h1 h2 h3 h4 h5 h6 h7
    rw [if_neg h1, if_neg h2, if_neg h3, if_neg h4, if_neg h5, if_neg h6, if_pos h7]
  · intro h1 h2 h3 h4 h5 h6 h7
    rw [if_neg h1, if_neg h2, if_neg h3, if_neg h4, if_neg h5, if_neg h6, if_neg h7]

/-- C3: the liquidation price is `entry · (1 − 1/leverage + mmr)` for LONG
and `entry · (1 + 1/leverage − mmr)` for SHORT; a LONG at entry 100,
leverage 50, mmr 0.005 liquidates at 98.5, and a tick whose price is at or
below `98.5 · (1 + buffer)` (none of the earlier exit conditions firing)
closes the position with reason `pre_liquidation` — the guard threshold
sits strictly above the raw liquidation price. -/
theorem liquidation_price_formula_and_guard :
    (∀ entry lev mmr : ℚ, 1 ≤ lev →
      calcLiquidationPrice entry lev .LONG mmr = entry * (1 - 1/lev + mmr)
      ∧ calcLiquidationPrice entry lev .SHORT mmr = entry * (1 + 1/lev - mmr))
    ∧ calcLiquidationPrice 100 50 .LONG (5/1000) = 197/2
    ∧ (∀ p now : ℚ, 197/2 < p → p ≤ 197/2 * (1 + 3/1000) →
        (monitorPosition examplePos (priceTick p) none now).1 = some .preLiquidation)
    ∧ (197/2 : ℚ) < 197/2 * (1 + 3/1000) := by
  refine ⟨?_, ?_, ?_, by norm_num⟩
  · intro entry lev mmr _
    constructor
    · simp [calcLiquidationPrice]
    · simp [calcLiquidationPrice]
  · norm_num [calcLiquidationPrice]
  · intro p now hlow hhigh
    have hp0 : ¬ p = 0 := by intro h; rw [h] at hlow; norm_num at hlow
    have hmax : max (90:ℚ) (p * (1 - 3/1000)) < p := by
      apply max_lt
      · linarith
      · nlinarith
    have h1 : updateTrailingStop examplePos p (3/1000) = examplePosAt p := by
      simp only [updateTrailingStop, examplePos, examplePosAt, jsTruthy, jsOr]
      rw [if_neg (show ¬ (p = 0 ∨ (100:ℚ) = 0) by push_neg; exact ⟨hp0, by norm_num⟩)]
      norm_num
    rw [monitor_eq_exitEval examplePos (priceTick p) none now p rfl hp0, h1]
    have htp : ¬ tpCond (examplePosAt p) p := by
      rintro (⟨-, h⟩ | ⟨hd, -⟩)
      · norm_num [jsOr, examplePosAt] at h
        linarith
      · simp [examplePosAt] at hd
    have hsl : ¬ slCond (examplePosAt p) p := by
      rintro (⟨-, h⟩ | ⟨hd, -⟩)
      · rw [show (examplePosAt p).stopLoss = some (max 90 (p * (1 - 3/1000))) from rfl] at h
        simp only [jsOr] at h
        rw [if_neg (by intro h0
                       linarith [le_max_left (90:ℚ) (p * (1 - 3/1000))] :
              ¬ (90:ℚ) ⊔ p * (1 - 3/1000) = 0)] at h
        linarith
      · simp [examplePosAt] at hd
    have hopp : ¬ oppCond (none : Option Direction) (examplePosAt p).direction := by
      rintro ⟨h, -⟩
      exact h rfl
    have hpre : preLiqCond (examplePosAt p) p := by
      refine Or.inl ⟨rfl, ?_⟩
      norm_num [calcLiquidationPrice, examplePosAt]
      linarith
    simp only [exitEval]
    rw [if_neg htp, if_neg hsl, if_neg hopp, if_pos hpre]

/-- Witness for C3 at the concrete price 98.7. -/
theorem liquidation_price_guard_witness :
    calcLiquidationPrice 100 50 .LONG (5/1000) = 197/2
    ∧ (monitorPosition examplePos (priceTick (987/10)) none 2).1 = some .preLiquidation :=
  ⟨liquidation_price_formula_and_guard.2.1,
    liquidation_price_formula_and_guard.2.2.1 (987/10) 2 (by norm_num) (by norm_num)⟩

/-- Witness for C2 at a concrete tick on which no exit condition fires. -/
theorem monitor_exit_order_witness :
    monitorPosition examplePos (priceTick 100) none 2 =
      (none, maxFavUpdate (liqRefresh (updateTrailingStop examplePos 100 (3/1000))) 100) :=
  (monitor_exit_order examplePos (priceTick 100) none 2 100 rfl
      (of_decide_eq_true (by with_unfolding_all rfl))
      (of_decide_eq_true (by with_unfolding_all rfl))).2.2.2.2.2.2.2
    (of_decide_eq_true (by with_unfolding_all rfl))
    (of_decide_eq_true (by with_unfolding_all rfl))
    (of_decide_eq_true (by with_unfolding_all rfl))
    (of_decide_eq_true (by with_unfolding_all rfl))
    (of_decide_eq_true (by with_unfolding_all rfl))
    (of_decide_eq_true (by with_unfolding_all rfl))
    (of_decide_eq_true (by with_unfolding_all rfl))

/-- C1: the claimed invariant fails on the code.  The `alreadyActive` check
in `handleWebSocketUpdate` is synchronous while the push happens in the
asynchronous order-success continuation of `executeTrade`, so two
same-direction signals evaluated before either order resolves both pass the
check and — once both orders succeed — are both pushed: after the event
sequence [signal, signal, resolve ok, resolve ok] one symbol tracks two
OPEN LONG positions, refuting at-most-one-per-(symbol, direction); the
skip only fires against already-pushed positions (last conjunct). -/
theorem open_positions_double_open :
    ((runSymbol ⟨[], []⟩
        [SymbolEvent.signal examplePos, SymbolEvent.signal examplePos,
         SymbolEvent.resolve true, SymbolEvent.resolve true]).positions.filter
      (fun q => q.direction == Direction.LONG)).length = 2
    ∧ ¬ atMostOnePerDirection (runSymbol ⟨[], []⟩
        [SymbolEvent.signal examplePos, SymbolEvent.signal examplePos,
         SymbolEvent.resolve true, SymbolEvent.resolve true]).positions
    ∧ evalSignal ⟨[examplePos], []⟩ examplePos = ⟨[examplePos], []⟩ := by
  refine ⟨rfl, ?_, rfl⟩
  intro h
  have h2 := h Direction.LONG
  rw [show ((runSymbol (⟨[], []⟩ : SymbolState)
      [SymbolEvent.signal examplePos, SymbolEvent.signal examplePos,
       SymbolEvent.resolve true, SymbolEvent.resolve true]).positions.filter
    (fun q => q.direction == Direction.LONG)).length = 2 from rfl] at h2
  norm_num at h2

end Lifecycle

/-- Single-step monotonicity of the executor trailing-stop update. -/
theorem executor_step_mono (cp ep csl act tr : ℚ) :
    csl ≤ executorUpdateTrailingStop cp ep .LONG csl act tr
    ∧ executorUpdateTrailingStop cp ep .SHORT csl act tr ≤ csl := by
  constructor
  · simp only [executorUpdateTrailingStop]
    split_ifs <;>
      first
        | exact le_refl _
        | exact le_max_left _ _
  · simp only [executorUpdateTrailingStop]
    split_ifs <;>
      first
        | exact le_refl _
        | exact min_le_left _ _
        | simp_all

/-- C4: the trailing stop never worsens across updates — in the lifecycle
manager's per-tick ratchet a LONG position's stop and trailing level never
decrease and a SHORT position's never increase (away from the falsy `0`
sentinel that JS treats as unset), and the SignalExecutor's
`updateTrailingStop` is likewise monotone on every single update and along
every price sequence. -/
theorem trailing_stop_monotone (pos : Lifecycle.AdvancedPosition) (p perc : ℚ)
    (hp : 0 < p) (hperc0 : 0 ≤ perc) (hperc1 : perc ≤ 1) :
    ((pos.direction = .LONG →
       (∀ s, pos.stopLoss = some s →
          ∃ s2, (Lifecycle.updateTrailingStop pos p perc).stopLoss = some s2 ∧ s ≤ s2)
       ∧ (∀ t, pos.trailingStop = some t →
          ∃ t2, (Lifecycle.updateTrailingStop pos p perc).trailingStop = some t2 ∧ t ≤ t2))
     ∧ (pos.direction = .SHORT → ¬ pos.stopLoss = some 0 → ¬ pos.trailingStop = some 0 →
       (∀ s, pos.stopLoss = some s →
          ∃ s2, (Lifecycle.updateTrailingStop pos p perc).stopLoss = some s2 ∧ s2 ≤ s)
       ∧ (∀ t, pos.trailingStop = some t →
          ∃ t2, (Lifecycle.updateTrailingStop pos p perc).trailingStop = some t2 ∧ t2 ≤ t)))
    ∧ (∀ cp ep csl act tr : ℚ,
        csl ≤ executorUpdateTrailingStop cp ep .LONG csl act tr
        ∧ executorUpdateTrailingStop cp ep .SHORT csl act tr ≤ csl)
    ∧ (∀ ep act tr sl0 : ℚ, ∀ prices : List ℚ,
        sl0 ≤ executorRunTrail ep .LONG act tr sl0 prices
        ∧ executorRunTrail ep .SHORT act tr sl0 prices ≤ sl0) := by
  have hnewSL : 0 ≤ p * (1 - perc) := by nlinarith
  refine ⟨⟨?_, ?_⟩, executor_step_mono, ?_⟩
  · intro hdir
    constructor
    · intro s hs
      simp only [Lifecycle.updateTrailingStop, hdir, hs, jsTruthy, jsOr, Option.getD]
      split_ifs with h0 hc hq
      · exact ⟨s, hs, le_refl s⟩
      · exact ⟨_, rfl, by rw [hq]; exact le_max_left 0 _⟩
      · exact ⟨_, rfl, le_max_left s _⟩
      · exact ⟨s, hs, le_refl s⟩
    · intro t ht
      simp only [Lifecycle.updateTrailingStop, hdir, ht, jsTruthy, jsOr, Option.getD]
      split_ifs with h0 hc
      · exact ⟨t, ht, le_refl t⟩
      · refine ⟨_, rfl, ?_⟩
        rcases hc with hc | hc
        · rw [show t = 0 by simpa using hc]
          exact hnewSL
        · exact le_of_lt hc
      · exact ⟨t, ht, le_refl t⟩
  · intro hdir hns0 hnt0
    constructor
    · intro s hs
      have hs0 : ¬ s = 0 := fun hh => hns0 (by rw [hs, hh])
      simp only [Lifecycle.updateTrailingStop, hdir, hs, jsTruthy, jsOr, Option.getD,
        eq_false (show ¬ Direction.SHORT = Direction.LONG by decide), if_false]
      split_ifs with h0 hc
      · exact ⟨s, hs, le_refl s⟩
      · exact ⟨_, rfl, min_le_left s _⟩
      · exact ⟨s, hs, le_refl s⟩
    · intro t ht
      have ht0 : ¬ t = 0 := fun hh => hnt0 (by rw [ht, hh])
      simp only [Lifecycle.updateTrailingStop, hdir, ht, jsTruthy, jsOr, Option.getD,
        eq_false (show ¬ Direction.SHORT = Direction.LONG by decide), if_false]
      split_ifs with h0 hc
      · exact ⟨t, ht, le_refl t⟩
      · refine ⟨_, rfl, ?_⟩
        rcases hc with hc | hc
        · exact absurd (show t = 0 by simpa using hc) ht0
        · exact le_of_lt hc
      · exact ⟨t, ht, le_refl t⟩
  · intro ep act tr sl0 prices
    induction prices generalizing sl0 with
    | nil => exact ⟨le_refl sl0, le_refl sl0⟩
    | cons q qs ih =>
      constructor
      · exact le_trans (executor_step_mono q ep sl0 act tr).1
          (ih (executorUpdateTrailingStop q ep .LONG sl0 act tr)).1
      · exact le_trans (ih (executorUpdateTrailingStop q ep .SHORT sl0 act tr)).2
          (executor_step_mono q ep sl0 act tr).2

/-- Witness for C4 at a concrete LONG position and a concrete executor
update. -/
theorem trailing_stop_monotone_witness :
    (∃ s2, (Lifecycle.updateTrailingStop Lifecycle.examplePos 100 (3/1000)).stopLoss = some s2
      ∧ (90:ℚ) ≤ s2)
    ∧ (10:ℚ) ≤ executorUpdateTrailingStop 20 10 .LONG 10 0 (1/100) := by
  have h := trailing_stop_monotone Lifecycle.examplePos 100 (3/1000)
    (by norm_num) (by norm_num) (by norm_num)
  exact ⟨(h.1.1 rfl).1 90 rfl, (h.2.1 20 10 10 0 (1/100)).1⟩

/-- Elements of `insertBest m s` come from `m` or are `s`. -/
theorem mem_insertBest {m : List RankedSignal} {s x : RankedSignal}
    (hx : x ∈ insertBest m s) : x ∈ m ∨ x = s := by
  unfold insertBest replaceBest at hx
  split_ifs at hx with h
  · rcases List.mem_map.mp hx with ⟨y, hy, hxy⟩
    split_ifs at hxy
    · exact Or.inr hxy.symm
    · exact Or.inl (hxy ▸ hy)
  · rcases List.mem_append.mp hx with h1 | h1
    · exact Or.inl h1
    · exact Or.inr (List.mem_singleton.mp h1)

/-- Elements of the dedup fold come from the accumulator or the input. -/
theorem mem_foldl_insertBest {x : RankedSignal} :
    ∀ (l m : List RankedSignal), x ∈ l.foldl insertBest m → x ∈ m ∨ x ∈ l := by
  intro l
  induction l with
  | nil => exact fun m hm => Or.inl hm
  | cons a as ih =>
    intro m hm
    rcases ih (insertBest m a) hm with h1 | h1
    · rcases mem_insertBest h1 with h2 | h2
      · exact Or.inl h2
      · exact Or.inr (h2 ▸ List.mem_cons_self a as)
    · exact Or.inr (List.mem_cons_of_mem a h1)

/-- Deduplication only keeps candidates of its input. -/
theorem mem_filterConflicting {l : List RankedSignal} {x : RankedSignal}
    (hx : x ∈ filterConflictingSignals l) : x ∈ l := by
  rcases mem_foldl_insertBest l [] hx with h1 | h1
  · cases h1
  · exact h1

/-- What passing the expiry filter says about the `validUntil` field. -/
theorem validAt_spec {now : ℚ} {r : RankedSignal} (h : validAt now r = true) :
    ∃ v, r.validUntil = some v ∧ v ≠ 0 ∧ now < v := by
  unfold validAt at h
  cases hv : r.validUntil with
  | none => rw [hv] at h; cases h
  | some v =>
    rw [hv] at h
    simp at h
    exact ⟨v, rfl, h.1, h.2⟩

/-- Ranked output is a subset of the still-valid scored candidates. -/
theorem mem_rank_mem_survivors {l : List TradeSignal} {maxC : ℕ} {now : ℚ}
    {r : RankedSignal} (hr : r ∈ rankAndSelectBestSignals l maxC now) :
    r ∈ survivorsStage l now := by
  unfold rankAndSelectBestSignals sortStage dedupStage at hr
  have h1 := (List.take_sublist maxC _).subset hr
  exact mem_filterConflicting ((List.mem_insertionSort byScoreDesc).mp h1)

/-- C6: every ranked signal still has a future expiry, and an empty or
fully-expired candidate list ranks to the empty list — never an error. -/
theorem ranker_drops_expired_and_never_errors (l : List TradeSignal) (maxC : ℕ) (now : ℚ) :
    (∀ r ∈ rankAndSelectBestSignals l maxC now, ∃ v, r.validUntil = some v ∧ now < v)
    ∧ rankAndSelectBestSignals [] maxC now = []
    ∧ ((∀ s ∈ l, ∀ v, s.validUntil = some v → v ≤ now) →
        rankAndSelectBestSignals l maxC now = []) := by
  refine ⟨?_, by simp [rankAndSelectBestSignals, sortStage, dedupStage, survivorsStage,
    filterConflictingSignals], ?_⟩
  · intro r hr
    obtain ⟨v, hv, -, hnv⟩ :=
      validAt_spec (List.mem_filter.mp (mem_rank_mem_survivors hr)).2
    exact ⟨v, hv, hnv⟩
  · intro hall
    have hsurv : survivorsStage l now = [] := by
      unfold survivorsStage
      rw [List.filter_eq_nil_iff]
      intro r hr hval
      rcases List.mem_map.mp hr with ⟨s, hsl, rfl⟩
      obtain ⟨v, hv, -, hnv⟩ := validAt_spec hval
      have hle := hall s hsl v hv
      linarith
    unfold rankAndSelectBestSignals sortStage dedupStage
    rw [hsurv]
    simp [filterConflictingSignals]

/-- C10: a candidate whose `validUntil` is absent or `0` can never appear in
the ranked output even when not expired: every ranked signal carries a
nonzero future expiry, and a single unstamped candidate ranks to the empty
list. -/
theorem ranker_requires_expiry_stamp (l : List TradeSignal) (maxC : ℕ) (now : ℚ)
    (r : RankedSignal) (hr : r ∈ rankAndSelectBestSignals l maxC now) :
    (∃ v, r.validUntil = some v ∧ v ≠ 0 ∧ now < v)
    ∧ (∀ s : TradeSignal, s.validUntil = none →
        rankAndSelectBestSignals [s] maxC now = []) := by
  constructor
  · exact validAt_spec (List.mem_filter.mp (mem_rank_mem_survivors hr)).2
  · intro s hs
    have hsurv : survivorsStage [s] now = [] := by
      unfold survivorsStage
      rw [List.filter_eq_nil_iff]
      intro x hx hval
      rcases List.mem_map.mp hx with ⟨y, hy, rfl⟩
      obtain ⟨v, hv, -, -⟩ := validAt_spec hval
      have hys : y = s := by simpa using hy
      rw [hys] at hv
      rw [show (rankify s).validUntil = s.validUntil from rfl, hs] at hv
      cases hv
    unfold rankAndSelectBestSignals sortStage dedupStage
    rw [hsurv]
    simp [filterConflictingSignals]

/-- Witness for C10 at a stamped candidate ranked at `now = 50`. -/
theorem ranker_requires_expiry_stamp_witness :
    ∃ v, (rankify sigNews).validUntil = some v ∧ v ≠ 0 ∧ (50:ℚ) < v :=
  (ranker_requires_expiry_stamp [sigNews] 5 50 (rankify sigNews)
      (of_decide_eq_true (by with_unfolding_all rfl))).1

/-- One `insertBest` step preserves the dedup-fold invariant. -/
theorem dedupInv_insertBest {processed m : List RankedSignal} (s : RankedSignal)
    (h : DedupInv processed m) : DedupInv (processed ++ [s]) (insertBest m s) := by
  obtain ⟨h1, h2, h3, h4⟩ := h
  unfold insertBest replaceBest
  split_ifs with hany
  · obtain ⟨x0, hx0, hx0s⟩ := List.any_eq_true.mp hany
    have hx0sym : x0.symbol = s.symbol := by simpa using hx0s
    refine ⟨?_, ?_, ?_, ?_⟩
    · intro r hr
      rcases List.mem_map.mp hr with ⟨y, hy, hys⟩
      by_cases hcond : (y.symbol == s.symbol && decide (y.score < s.score)) = true
      · rw [if_pos hcond] at hys
        exact hys ▸ List.mem_append.mpr (Or.inr (List.mem_singleton_self s))
      · rw [if_neg hcond] at hys
        exact List.mem_append.mpr (Or.inl (hys ▸ h1 y hy))
    · intro c hc r hr hsym
      rcases List.mem_map.mp hr with ⟨y, hy, hys⟩
      rcases List.mem_append.mp hc with hc1 | hc2
      · by_cases hcond : (y.symbol == s.symbol && decide (y.score < s.score)) = true
        · rw [if_pos hcond] at hys
          subst hys
          obtain ⟨hy1, hy2⟩ : y.symbol = s.symbol ∧ y.score < s.score := by simpa using hcond
          have hcy : c.score ≤ y.score := h2 c hc1 y hy (by rw [hy1, hsym])
          linarith
        · rw [if_neg hcond] at hys
          subst hys
          exact h2 c hc1 y hy hsym
      · have hcs : c = s := List.mem_singleton.mp hc2
        by_cases hcond : (y.symbol == s.symbol && decide (y.score < s.score)) = true
        · rw [if_pos hcond] at hys
          subst hys
          rw [hcs]
        · rw [if_neg hcond] at hys
          subst hys
          have hysym : y.symbol = s.symbol := by rw [hsym, hcs]
          have hnlt : ¬ y.score < s.score := by
            intro hlt
            exact hcond (by simp [hysym, hlt])
          rw [hcs]
          exact le_of_not_lt hnlt
    · intro c hc
      rcases List.mem_append.mp hc with hc1 | hc2
      · obtain ⟨r0, hr0, hr0sym⟩ := h3 c hc1
        by_cases hcond : (r0.symbol == s.symbol && decide (r0.score < s.score)) = true
        · refine ⟨s, List.mem_map.mpr ⟨r0, hr0, by rw [if_pos hcond]⟩, ?_⟩
          obtain ⟨hr1, -⟩ : r0.symbol = s.symbol ∧ r0.score < s.score := by simpa using hcond
          rw [← hr1, hr0sym]
        · exact ⟨r0, List.mem_map.mpr ⟨r0, hr0, by rw [if_neg hcond]⟩, hr0sym⟩
      · have hcs : c = s := List.mem_singleton.mp hc2
        by_cases hcond : (x0.symbol == s.symbol && decide (x0.score < s.score)) = true
        · exact ⟨s, List.mem_map.mpr ⟨x0, hx0, by rw [if_pos hcond]⟩, by rw [hcs]⟩
        · exact ⟨x0, List.mem_map.mpr ⟨x0, hx0, by rw [if_neg hcond]⟩, by rw [hx0sym, hcs]⟩
    · have hgsym : ∀ a : RankedSignal,
          (if (a.symbol == s.symbol && decide (a.score < s.score)) = true then s else a).symbol
            = a.symbol := by
        intro a
        split_ifs with hcond
        · obtain ⟨ha1, -⟩ : a.symbol = s.symbol ∧ a.score < s.score := by simpa using hcond
          exact ha1.symm
        · rfl
      unfold distinctSymbols at h4 ⊢
      rw [List.pairwise_map]
      exact h4.imp fun {a b} hne => by rw [hgsym a, hgsym b]; exact hne
  · have hnone : ∀ x ∈ m, ¬ x.symbol = s.symbol := by simpa using hany
    refine ⟨?_, ?_, ?_, ?_⟩
    · intro r hr
      rcases List.mem_append.mp hr with h | h
      · exact List.mem_append.mpr (Or.inl (h1 r h))
      · exact List.mem_append.mpr (Or.inr h)
    · intro c hc r hr hsym
      rcases List.mem_append.mp hc with hc | hc <;> rcases List.mem_append.mp hr with hr' | hr'
      · exact h2 c hc r hr' hsym
      · have hrs : r = s := List.mem_singleton.mp hr'
        obtain ⟨r0, hr0, hr0sym⟩ := h3 c hc
        refine absurd (?_ : r0.symbol = s.symbol) (hnone r0 hr0)
        rw [hr0sym, ← hsym, hrs]
      · have hcs : c = s := List.mem_singleton.mp hc
        rw [hcs] at hsym
        exact absurd hsym (hnone r hr')
      · have hcs : c = s := List.mem_singleton.mp hc
        have hrs : r = s := List.mem_singleton.mp hr'
        rw [hcs, hrs]
    · intro c hc
      rcases List.mem_append.mp hc with hc | hc
      · obtain ⟨r0, hr0, hr0sym⟩ := h3 c hc
        exact ⟨r0, List.mem_append.mpr (Or.inl hr0), hr0sym⟩
      · have hcs : c = s := List.mem_singleton.mp hc
        exact ⟨s, List.mem_append.mpr (Or.inr (List.mem_singleton_self s)), by rw [hcs]⟩
    · unfold distinctSymbols at h4 ⊢
      rw [List.pairwise_append]
      refine ⟨h4, List.pairwise_singleton _ _, ?_⟩
      intro a ha b hb
      have hbs : b = s := List.mem_singleton.mp hb
      subst hbs
      exact hnone a ha

/-- The dedup fold preserves the invariant along any input list. -/
theorem dedupInv_foldl (l : List RankedSignal) :
    ∀ processed m, DedupInv processed m → DedupInv (processed ++ l) (l.foldl insertBest m) := by
  induction l with
  | nil => intro processed m h; simpa using h
  | cons a as ih =>
    intro processed m h
    have h3 := ih (processed ++ [a]) (insertBest m a) (dedupInv_insertBest a h)
    rw [show processed ++ a :: as = (processed ++ [a]) ++ as by simp]
    exact h3

/-- `filterConflictingSignals` satisfies the dedup invariant against its
own input. -/
theorem dedupInv_filterConflicting (l : List RankedSignal) :
    DedupInv l (filterConflictingSignals l) := by
  have h0 : DedupInv [] ([] : List RankedSignal) := by
    refine ⟨?_, ?_, ?_, ?_⟩ <;> simp [distinctSymbols]
  have h := dedupInv_foldl l [] [] h0
  simpa [filterConflictingSignals] using h

/-- C7: the ranked output holds at most one signal per symbol — each the
highest-scoring surviving candidate for its symbol — sorted in descending
score order and truncated to `maxC` entries; in particular, of a LONG and a
higher-scoring SHORT on the same symbol only the SHORT survives. -/
theorem ranker_dedup_sort_truncate (l : List TradeSignal) (maxC : ℕ) (now : ℚ) :
    distinctSymbols (rankAndSelectBestSignals l maxC now)
    ∧ (∀ r ∈ rankAndSelectBestSignals l maxC now,
        r ∈ survivorsStage l now
        ∧ ∀ c ∈ survivorsStage l now, c.symbol = r.symbol → c.score ≤ r.score)
    ∧ List.Sorted byScoreDesc (rankAndSelectBestSignals l maxC now)
    ∧ (rankAndSelectBestSignals l maxC now).length ≤ maxC
    ∧ rankAndSelectBestSignals [sigWhale, sigNews] 5 50 = [rankify sigNews] := by
  obtain ⟨hsub, hbest, hrep, hdist⟩ := dedupInv_filterConflicting (survivorsStage l now)
  have hperm := List.perm_insertionSort byScoreDesc (dedupStage l now)
  refine ⟨?_, ?_, ?_, ?_, of_decide_eq_true (by with_unfolding_all rfl)⟩
  · have hdist2 : distinctSymbols (sortStage l now) := by
      unfold distinctSymbols at hdist ⊢
      exact (hperm.pairwise_iff fun {x y} h => h.symm).mpr hdist
    exact List.Pairwise.sublist (List.take_sublist maxC _) hdist2
  · intro r hr
    have hrm : r ∈ dedupStage l now :=
      (List.mem_insertionSort byScoreDesc).mp ((List.take_sublist maxC _).subset hr)
    refine ⟨hsub r hrm, ?_⟩
    intro c hc hcsym
    exact hbest c hc r hrm hcsym.symm
  · exact List.Pairwise.sublist (List.take_sublist maxC _)
      (List.sorted_insertionSort byScoreDesc _)
  · exact List.length_take_le maxC _

/-- C8: ranking is deterministic and idempotent — the same candidate list
and the same clock give the same output — and ties are broken by stable
input order: in deduplication an existing at-least-equal-scoring candidate
beats a later same-symbol one, in the final ordering two entries whose
scores allow it keep their deduplication order, and of two equal-scoring
same-symbol candidates the earlier one survives. -/
theorem ranker_deterministic_stable_ties (l : List TradeSignal) (maxC : ℕ) (now : ℚ) :
    rankAndSelectBestSignals l maxC now = rankAndSelectBestSignals l maxC now
    ∧ (∀ (m : List RankedSignal) (s : RankedSignal), (∃ x ∈ m, x.symbol = s.symbol) →
        (∀ x ∈ m, x.symbol = s.symbol → s.score ≤ x.score) → insertBest m s = m)
    ∧ (∀ a b : RankedSignal, byScoreDesc a b →
        List.Sublist [a, b] (dedupStage l now) → List.Sublist [a, b] (sortStage l now))
    ∧ rankAndSelectBestSignals [sigNewsTwin, sigNews] 5 50 = [rankify sigNewsTwin] := by
  refine ⟨rfl, ?_, ?_, of_decide_eq_true (by with_unfolding_all rfl)⟩
  · rintro m s ⟨x, hx, hxs⟩ hall
    unfold insertBest replaceBest
    rw [if_pos (List.any_eq_true.mpr ⟨x, hx, by simp [hxs]⟩)]
    have hid : ∀ y ∈ m,
        (if (y.symbol == s.symbol && decide (y.score < s.score)) = true then s else y) = y := by
      intro y hy
      split_ifs with hcond
      · obtain ⟨hy1, hy2⟩ : y.symbol = s.symbol ∧ y.score < s.score := by simpa using hcond
        exact absurd hy2 (not_lt.mpr (hall y hy hy1))
      · rfl
    rw [List.map_congr_left hid]
    simp
  · intro a b hab hsubl
    exact List.pair_sublist_insertionSort hab hsubl

namespace Funding

/-- Every leverage ceiling in the table (and the default) is at least 5. -/
theorem leverageLimitFor_ge_five (sym : String) : (5:ℚ) ≤ leverageLimitFor sym := by
  unfold leverageLimitFor
  split_ifs <;> norm_num

/-- The computed leverage never exceeds the symbol's ceiling. -/
theorem getRealisticLeverage_le (sym : String) (fr : ℚ) :
    getRealisticLeverage sym fr ≤ leverageLimitFor sym := by
  unfold getRealisticLeverage
  exact max_le (leverageLimitFor_ge_five sym) (min_le_right _ _)

/-- The computed leverage is at least 5. -/
theorem getRealisticLeverage_ge (sym : String) (fr : ℚ) :
    (5:ℚ) ≤ getRealisticLeverage sym fr :=
  le_max_left 5 _

/-- C9: every signal the funding strategy emits comes from a market passing
the extreme-funding filter; negative funding yields a LONG with target
strictly above and stop strictly below entry, positive funding a SHORT with
target strictly below and stop strictly above entry; leverage is clamped to
the symbol's ceiling and the expiry is exactly 8 hours after creation. -/
theorem funding_signal_shape (markets : List MarketSummary) (cfg : StrategyConfig)
    (now : ℚ) (hpos : ∀ m ∈ markets, 0 < m.price) :
    ∀ s ∈ fundingRateStrategy markets cfg now,
      ∃ m ∈ markets,
        (1/1000 < |m.fundingRate| ∧ 1000000 < m.volume24h)
        ∧ s = mkFundingSignal now m
        ∧ (m.fundingRate < 0 →
            s.direction = .LONG ∧ s.entryPrice < s.targetPrice ∧ s.stopLoss < s.entryPrice)
        ∧ (0 < m.fundingRate →
            s.direction = .SHORT ∧ s.targetPrice < s.entryPrice ∧ s.entryPrice < s.stopLoss)
        ∧ s.leverage ≤ leverageLimitFor s.symbol
        ∧ s.validUntil = now + 28800000 := by
  intro s hs
  unfold fundingRateStrategy at hs
  rcases List.mem_map.mp hs with ⟨m, hm, rfl⟩
  have hm3 := (List.mem_insertionSort byAbsFundingDesc).mp ((List.take_sublist 3 _).subset hm)
  obtain ⟨hm4, hfil⟩ := List.mem_filter.mp hm3
  have hp := hpos m hm4
  obtain ⟨hfr, hvol⟩ : 1/1000 < |m.fundingRate| ∧ 1000000 < m.volume24h := by
    unfold passesFundingFilter at hfil
    simpa using hfil
  have hlev5 : (5:ℚ) ≤ getRealisticLeverage m.symbol m.fundingRate :=
    getRealisticLeverage_ge m.symbol m.fundingRate
  have hlevpos : (0:ℚ) < getRealisticLeverage m.symbol m.fundingRate := by linarith
  have hslpos : 0 < 100 / getRealisticLeverage m.symbol m.fundingRate * (7/10) := by positivity
  refine ⟨m, hm4, ⟨hfr, hvol⟩, rfl, ?_, ?_, ?_, ?_⟩
  · intro hneg
    have hnot : ¬ 0 < m.fundingRate := not_lt.mpr (le_of_lt hneg)
    refine ⟨?_, ?_, ?_⟩
    · simp only [mkFundingSignal]
      rw [if_neg hnot]
    · simp only [mkFundingSignal]
      rw [if_neg hnot]
      rw [if_pos rfl]
      nlinarith [mul_pos hp hslpos]
    · simp only [mkFundingSignal]
      rw [if_neg hnot]
      rw [if_pos rfl]
      nlinarith [mul_pos hp hslpos]
  · intro hposfr
    refine ⟨?_, ?_, ?_⟩
    · simp only [mkFundingSignal]
      rw [if_pos hposfr]
    · simp only [mkFundingSignal]
      rw [if_pos hposfr]
      rw [if_neg (by decide : ¬ Direction.SHORT = Direction.LONG)]
      nlinarith [mul_pos hp hslpos]
    · simp only [mkFundingSignal]
      rw [if_pos hposfr]
      rw [if_neg (by decide : ¬ Direction.SHORT = Direction.LONG)]
      nlinarith [mul_pos hp hslpos]
  · simp only [mkFundingSignal]
    exact getRealisticLeverage_le m.symbol m.fundingRate
  · simp only [mkFundingSignal]
    norm_num

end Funding

/-- Witness for C9: the funding strategy on the concrete −0.17% market. -/
theorem funding_signal_shape_witness :
    ∃ m ∈ [mBTC],
      ((1:ℚ)/1000 < |m.fundingRate| ∧ (1000000:ℚ) < m.volume24h)
      ∧ Funding.mkFundingSignal 0 mBTC = Funding.mkFundingSignal 0 m
      ∧ (m.fundingRate < 0 →
          (Funding.mkFundingSignal 0 mBTC).direction = .LONG
          ∧ (Funding.mkFundingSignal 0 mBTC).entryPrice
              < (Funding.mkFundingSignal 0 mBTC).targetPrice
          ∧ (Funding.mkFundingSignal 0 mBTC).stopLoss
              < (Funding.mkFundingSignal 0 mBTC).entryPrice)
      ∧ (0 < m.fundingRate →
          (Funding.mkFundingSignal 0 mBTC).direction = .SHORT
          ∧ (Funding.mkFundingSignal 0 mBTC).targetPrice
              < (Funding.mkFundingSignal 0 mBTC).entryPrice
          ∧ (Funding.mkFundingSignal 0 mBTC).entryPrice
              < (Funding.mkFundingSignal 0 mBTC).stopLoss)
      ∧ (Funding.mkFundingSignal 0 mBTC).leverage
          ≤ Funding.leverageLimitFor (Funding.mkFundingSignal 0 mBTC).symbol
      ∧ (Funding.mkFundingSignal 0 mBTC).validUntil = 0 + 28800000 := by
  have hfil : List.filter Funding.passesFundingFilter [mBTC] = [mBTC] := by
    have hpass : Funding.passesFundingFilter mBTC = true := by
      unfold Funding.passesFundingFilter mBTC
      norm_num
      rw [abs_of_pos (by norm_num : (0:ℚ) < 17/10000)]
      norm_num
    simp [hpass]
  have hmem : Funding.mkFundingSignal 0 mBTC
      ∈ Funding.fundingRateStrategy [mBTC] ⟨50, 100, 2⟩ 0 := by
    unfold Funding.fundingRateStrategy
    rw [hfil]
    exact List.mem_singleton_self _
  exact Funding.funding_signal_shape [mBTC] ⟨50, 100, 2⟩ 0
    (by intro m hm; rw [List.mem_singleton.mp hm]; norm_num [mBTC])
    (Funding.mkFundingSignal 0 mBTC) hmem

end GptWolf
